import Mathlib

/-!
Verification development for the patent/paper visualization dashboards.

The embedding below follows the Python source files (`patent_app_v1.1.py` …
`patent_app_v1.5.py`, `patent_app_transformer_v1.1.py`):

* the canonical count table and the module-level derive step
  (`df.sort_values([group_col, "year_month"])`,
  `df.groupby(group_col)["count"].cumsum()`,
  `df.groupby(group_col)["ma_6"].cumsum()`);
* the schema-level column renaming done by the loaders
  (`load_monthly`, `load_country`, `load_combined_monthly`);
* timestamp parsing (`pd.to_datetime` with and without `errors="coerce"`);
* the difficulty scorer `load_difficulty` of `patent_app_v1.5.py` and the
  module-level difficulty-mode control flow.

Definitions come first, all theorems afterwards.
-/

namespace PatentApp

/-- Canonical count record, after the loaders renamed the columns
(`year_month`, `technical_element`, `key`, `count`, `ma_6`, `conversion_flag`).
Timestamps are encoded as natural numbers preserving chronological order. -/
structure Row where
  year_month : Nat
  technical_element : String
  key : String
  count : Int
  ma_6 : Rat
  conversion_flag : Bool
deriving Repr, DecidableEq

/-- Row of the derived table: the two columns appended at module level
(`df["cumulative"]`, `df["ma6_cum"]`) on top of the canonical columns. -/
structure DRow extends Row where
  cumulative : Int
  ma6_cum : Rat
deriving Repr, DecidableEq

/-- Strict lexicographic comparison of character lists — the order pandas
uses on a string column. -/
def charListLT : List Char → List Char → Bool
  | [], [] => false
  | [], _ :: _ => true
  | _ :: _, [] => false
  | a :: as, b :: bs =>
    if a < b then true
    else if b < a then false
    else charListLT as bs

/-- Strict lexicographic order on strings. -/
def strLT (a b : String) : Prop :=
  charListLT a.toList b.toList = true

instance strLT.decidable (a b : String) : Decidable (strLT a b) := by
  unfold strLT
  infer_instance

/-- Lexicographic order used by `df.sort_values([group_col, "year_month"])`:
first by the grouping column, then by timestamp. -/
def rowLE (g : Row → String) (a b : Row) : Prop :=
  strLT (g a) (g b) ∨ (g a = g b ∧ a.year_month ≤ b.year_month)

instance rowLE.decidableRel (g : Row → String) : DecidableRel (rowLE g) := by
  intro a b
  unfold rowLE
  infer_instance

/-- `df.sort_values([group_col, "year_month"])` — a stable sort by
(grouping column, timestamp). -/
def sortRows (g : Row → String) (rows : List Row) : List Row :=
  List.insertionSort (rowLE g) rows

/-- `df.groupby(group_col)["count"].cumsum()` and
`df.groupby(group_col)["ma_6"].cumsum()`: each row receives the sum of
`count` (resp. `ma_6`) over the rows up to and including it, in current row
order, that share its grouping value.  `pre` carries the rows already
traversed. -/
def deriveFrom (g : Row → String) : List Row → List Row → List DRow
  | _, [] => []
  | pre, r :: rs =>
    { toRow := r
      cumulative := (((pre ++ [r]).filter fun x => decide (g x = g r)).map Row.count).sum
      ma6_cum := (((pre ++ [r]).filter fun x => decide (g x = g r)).map Row.ma_6).sum } ::
    deriveFrom g (pre ++ [r]) rs

/-- The module-level derive step of every app variant: sort by
(grouping column, timestamp), then per-group cumulative sums of `count`
and of `ma_6`.  (In v1.5 the step is preceded by
`df.loc[:, ~df.columns.duplicated()]`, which is the identity whenever the
column names are pairwise distinct — which the record embedding guarantees.) -/
def deriveTable (g : Row → String) (rows : List Row) : List DRow :=
  deriveFrom g [] (sortRows g rows)

/-- The rows of the derived table whose grouping value is `k` — the
`(technical_element, group_key)` partition the spec speaks about
(in monthly mode `g` reads `technical_element`; in the grouped views the
table was pre-filtered to one technical element and `g` reads `key`). -/
def partitionOf (g : Row → String) (k : String) (tbl : List DRow) : List DRow :=
  tbl.filter fun d => decide (g d.toRow = k)

/-- Running sum of a list of values: the spec's words "running sum of
`count` / `moving_average` ordered by timestamp", starting from `base`. -/
def runningSum {β : Type} [Add β] (base : β) : List β → List β
  | [] => []
  | v :: vs => (base + v) :: runningSum (base + v) vs

/-! Schema-level column renaming performed by the loaders.  A table schema is
its list of column names. -/

/-- Alias priority list of v1.5/v1.3/v1.2 `load_country`:
`for c in ["Country", "country", "Company", "company", "industry", "Industry"]`. -/
def groupAliases : List String :=
  ["Country", "country", "Company", "company", "industry", "Industry"]

/-- The loop body of `load_country`: the first alias present among the columns
is the one renamed to `key` (the loop `break`s at the first hit). -/
def detectGroupCol (cols : List String) : Option String :=
  groupAliases.find? fun c => decide (c ∈ cols)

/-- A single-entry `df.rename`: every column named `old` becomes `new`. -/
def renameCols (old new : String) (cols : List String) : List String :=
  cols.map fun c => if c = old then new else c

/-- The group-key renaming step of `load_country`: rename the first matching
alias to `key`; leave the schema unchanged when no alias matches. -/
def normalizeGroupCol (cols : List String) : List String :=
  match detectGroupCol cols with
  | some c => renameCols c "key" cols
  | none => cols

/-- The `rename_map` built by v1.5 `load_monthly`: always `items → count`,
plus `category` / `Technical_elements` / `technical_elements` →
`technical_element` for each alias actually present in the columns. -/
def monthlyRenameMap (cols : List String) : List (String × String) :=
  [("items", "count")]
    ++ (if "category" ∈ cols then [("category", "technical_element")] else [])
    ++ (if "Technical_elements" ∈ cols then
          [("Technical_elements", "technical_element")] else [])
    ++ (if "technical_elements" ∈ cols then
          [("technical_elements", "technical_element")] else [])

/-- `df.rename(columns=rename_map)` applied to a schema. -/
def applyRenameMap (m : List (String × String)) (cols : List String) : List String :=
  cols.map fun c =>
    match m.find? fun p => decide (p.1 = c) with
    | some p => p.2
    | none => c

/-- The column renaming performed by v1.5 `load_monthly` (the function raises
no error when no technical-element alias is present: it simply returns the
renamed schema). -/
def load_monthly_cols (cols : List String) : List String :=
  applyRenameMap (monthlyRenameMap cols) cols

/-- The renaming chain of v1.1 `load_combined_monthly`: `items → count`, then
`category` elif `Technical_elements`; in the `else` branch `st.error` shows a
message but execution continues to the final column selection. -/
def monthlyRename_v11 (cols : List String) : List String :=
  let cols1 := renameCols "items" "count" cols
  if "category" ∈ cols1 then renameCols "category" "technical_element" cols1
  else if "Technical_elements" ∈ cols1 then
    renameCols "Technical_elements" "technical_element" cols1
  else cols1

/-- `df[want]` — pandas raises a `KeyError` when a requested column is
missing, otherwise returns the projection onto the requested columns. -/
def selectCols (want cols : List String) : Except String (List String) :=
  if want.all fun c => decide (c ∈ cols) then Except.ok want
  else Except.error "KeyError"

/-- v1.1 `load_combined_monthly` at schema level: rename, then select the
five canonical columns (`return df[[...]]`). -/
def load_combined_monthly_cols (cols : List String) : Except String (List String) :=
  selectCols ["year_month", "technical_element", "count", "ma_6", "conversion_flag"]
    (monthlyRename_v11 cols)

/-! Timestamp parsing.  `parseTimestamp` models `pd.to_datetime` on the
`YYYY-MM` / `YYYY-MM-DD` strings of the input files: the result is a day
number when the string parses, and `none` otherwise. -/

/-- Split a character list at the dash separators. -/
def splitDash : List Char → List (List Char)
  | [] => [[]]
  | c :: rest =>
    if c = '-' then [] :: splitDash rest
    else
      match splitDash rest with
      | [] => [[c]]
      | h :: t => (c :: h) :: t

/-- Read a nonempty all-digit character list as a number. -/
def digitsToNat? (cs : List Char) : Option Nat :=
  if cs ≠ [] ∧ cs.all Char.isDigit then
    some (cs.foldl (fun acc c => acc * 10 + (c.toNat - 48)) 0)
  else none

/-- Parse a `YYYY-MM` or `YYYY-MM-DD` string into a chronologically ordered
day number; any other string is unparseable. -/
def parseTimestamp (s : String) : Option Nat :=
  match splitDash s.toList with
  | [y, m] =>
    match digitsToNat? y, digitsToNat? m with
    | some yn, some mn =>
      if 1 ≤ mn ∧ mn ≤ 12 then some (yn * 372 + (mn - 1) * 31) else none
    | _, _ => none
  | [y, m, d] =>
    match digitsToNat? y, digitsToNat? m, digitsToNat? d with
    | some yn, some mn, some dn =>
      if (1 ≤ mn ∧ mn ≤ 12) ∧ (1 ≤ dn ∧ dn ≤ 31) then
        some (yn * 372 + (mn - 1) * 31 + (dn - 1))
      else none
    | _, _, _ => none
  | _ => none

/-- `pd.to_datetime(df["year_month"], errors="coerce")` (v1.5 and the
transformer variant): unparseable values become a null timestamp and every
row is retained. -/
def to_datetime_coerce (vals : List String) : List (Option Nat) :=
  vals.map parseTimestamp

/-- `pd.to_datetime(df["year_month"])` (v1.1 / v1.2 / v1.3 / v1.4): the
default `errors="raise"` policy raises on the first unparseable value. -/
def to_datetime_strict : List String → Except String (List Nat)
  | [] => Except.ok []
  | s :: rest =>
    match parseTimestamp s with
    | some t =>
      match to_datetime_strict rest with
      | Except.ok ts => Except.ok (t :: ts)
      | Except.error e => Except.error e
    | none => Except.error s

/-! The difficulty scorer of v1.5 (`load_difficulty`). -/

/-- Raw difficulty record after the initial rename
(`technology → technical_element`, `TRL_tech → TRL`, …): the base ratings
plus the dimension-suffixed ratings the composite formula reads. -/
structure DiffRow where
  technical_element : String
  industry : String
  company : String
  TRL : Rat
  Technical_Feasibility : Rat
  Social_Feasibility : Rat
  TRL_industry : Rat
  Technical_Feasibility_industry : Rat
  Social_Feasibility_industry : Rat
  TRL_company : Rat
  Technical_Feasibility_company : Rat
  Social_Feasibility_company : Rat
deriving Repr, DecidableEq

/-- Scored difficulty record: the five columns `load_difficulty` appends. -/
structure ScoredRow extends DiffRow where
  TRL_norm : Rat
  Tech_norm : Rat
  Social_inv_norm : Rat
  Composite_Score_industry : Rat
  Composite_Score_company : Rat
deriving Repr, DecidableEq

/-- Composite weight on the TRL component (source literal `0.35`). -/
def w_TRL : Rat := 0.35

/-- Composite weight on the Technical Feasibility component (source `0.50`). -/
def w_Tech : Rat := 0.50

/-- Composite weight on the inverted Social Feasibility component (source `0.20`). -/
def w_Social : Rat := 0.20

/-- The row-wise arithmetic of v1.5 `load_difficulty`: base-level
normalisation and, for each dimension, the composite
`0.35*(TRL_d-1)/8 + 0.50*(TF_d-1)/4 + 0.20*(1-(SF_d-1)/4)`. -/
def scoreRow (r : DiffRow) : ScoredRow :=
  { r with
    TRL_norm := (r.TRL - 1) / 8
    Tech_norm := (r.Technical_Feasibility - 1) / 4
    Social_inv_norm := 1 - (r.Social_Feasibility - 1) / 4
    Composite_Score_industry :=
      w_TRL * (r.TRL_industry - 1) / 8
        + w_Tech * (r.Technical_Feasibility_industry - 1) / 4
        + w_Social * (1 - (r.Social_Feasibility_industry - 1) / 4)
    Composite_Score_company :=
      w_TRL * (r.TRL_company - 1) / 8
        + w_Tech * (r.Technical_Feasibility_company - 1) / 4
        + w_Social * (1 - (r.Social_Feasibility_company - 1) / 4) }

/-- v1.5 `load_difficulty`: score every row of the renamed table. -/
def load_difficulty (rows : List DiffRow) : List ScoredRow :=
  rows.map scoreRow

/-! The difficulty-mode control flow of v1.5 (module level, lines 110-210):
`load_difficulty` runs first (scores are computed at load time), then the
technical-element multiselect is read; an empty selection hits
`st.warning` + `st.stop()` before any filtering or chart rendering. -/

/-- Observable steps of the difficulty-mode script. -/
inductive DiffEvent where
  | scoringRun
  | emptySelectionWarning
  | chartRendered
deriving Repr, DecidableEq

/-- The difficulty-mode run: the events in execution order, paired with the
filtered table handed to the charts (`df_sel`); on an empty selection the
script stops after warning, so nothing is filtered or rendered — but the
scored table was already computed by `load_difficulty`. -/
def difficultyMode (raw : List DiffRow) (techs : List String) :
    List DiffEvent × List ScoredRow :=
  let df_diff := load_difficulty raw
  if techs.isEmpty then
    ([DiffEvent.scoringRun, DiffEvent.emptySelectionWarning], [])
  else
    ([DiffEvent.scoringRun, DiffEvent.chartRendered],
      df_diff.filter fun r => decide (r.technical_element ∈ techs))

/-! Concrete records used as test vectors. -/

/-- The spec's scenario row `("2023-01", "AI", 10, 8.5, false)`. -/
def exRow1 : Row :=
  { year_month := 202301, technical_element := "AI", key := ""
    count := 10, ma_6 := 17 / 2, conversion_flag := false }

/-- The spec's scenario row `("2023-02", "AI", 5, 7.0, true)`. -/
def exRow2 : Row :=
  { year_month := 202302, technical_element := "AI", key := ""
    count := 5, ma_6 := 7, conversion_flag := true }

/-- The spec's two-row scenario table. -/
def exRows : List Row := [exRow1, exRow2]

/-- A difficulty record with every rating at the favourable end
(TRL 9, Technical Feasibility 5, Social Feasibility 1, in every dimension). -/
def maxDiffRow : DiffRow :=
  { technical_element := "AI", industry := "Automotive", company := "ACME"
    TRL := 9, Technical_Feasibility := 5, Social_Feasibility := 1
    TRL_industry := 9, Technical_Feasibility_industry := 5
    Social_Feasibility_industry := 1
    TRL_company := 9, Technical_Feasibility_company := 5
    Social_Feasibility_company := 1 }

/-- A difficulty record with every rating at the unfavourable end
(TRL 1, Technical Feasibility 1, Social Feasibility 5, in every dimension). -/
def minDiffRow : DiffRow :=
  { technical_element := "AI", industry := "Automotive", company := "ACME"
    TRL := 1, Technical_Feasibility := 1, Social_Feasibility := 5
    TRL_industry := 1, Technical_Feasibility_industry := 1
    Social_Feasibility_industry := 5
    TRL_company := 1, Technical_Feasibility_company := 1
    Social_Feasibility_company := 5 }

/-- A difficulty record with mid-range ratings. -/
def midDiffRow : DiffRow :=
  { technical_element := "Robotics", industry := "Automotive", company := "ACME"
    TRL := 5, Technical_Feasibility := 3, Social_Feasibility := 2
    TRL_industry := 4, Technical_Feasibility_industry := 2
    Social_Feasibility_industry := 3
    TRL_company := 6, Technical_Feasibility_company := 4
    Social_Feasibility_company := 4 }

/-- A raw monthly schema with no technical-element alias. -/
def badMonthlyCols : List String :=
  ["year_month", "items", "ma_6", "conversion_flag"]

/-- A raw grouped schema containing both a `Country` and a `company` column. -/
def twoGroupCols : List String :=
  ["year_month", "technical_elements", "Country", "company", "items",
    "ma_6", "conversion_flag"]

/-! Supporting lemmas. -/

lemma charListLT_irrefl : ∀ l : List Char, charListLT l l = false
  | [] => rfl
  | a :: as => by simp [charListLT, lt_irrefl, charListLT_irrefl as]

lemma charListLT_trans : ∀ {l1 l2 l3 : List Char},
    charListLT l1 l2 = true → charListLT l2 l3 = true → charListLT l1 l3 = true
  | [], [], _, h1, _ => by simp [charListLT] at h1
  | [], _ :: _, [], _, h2 => by simp [charListLT] at h2
  | [], _ :: _, _ :: _, _, _ => rfl
  | _ :: _, [], _, h1, _ => by simp [charListLT] at h1
  | _ :: _, _ :: _, [], _, h2 => by simp [charListLT] at h2
  | a :: as, b :: bs, c :: cs, h1, h2 => by
    by_cases hab : a < b
    · by_cases hbc : b < c
      · simp [charListLT, lt_trans hab hbc]
      · by_cases hcb : c < b
        · simp [charListLT, hbc, hcb] at h2
        · have hbceq : b = c := by
            rcases lt_trichotomy b c with h | h | h
            · exact absurd h hbc
            · exact h
            · exact absurd h hcb
          subst hbceq
          simp [charListLT, hab]
    · by_cases hba : b < a
      · simp [charListLT, hab, hba] at h1
      · have habeq : a = b := by
          rcases lt_trichotomy a b with h | h | h
          · exact absurd h hab
          · exact h
          · exact absurd h hba
        subst habeq
        by_cases hac : a < c
        · simp [charListLT, hac]
        · by_cases hca : c < a
          · simp [charListLT, hac, hca] at h2
          · have haceq : a = c := by
              rcases lt_trichotomy a c with h | h | h
              · exact absurd h hac
              · exact h
              · exact absurd h hca
            subst haceq
            simp [charListLT, lt_irrefl] at h1 h2 ⊢
            exact charListLT_trans h1 h2

lemma charListLT_trichotomy : ∀ (l1 l2 : List Char),
    charListLT l1 l2 = true ∨ charListLT l2 l1 = true ∨ l1 = l2
  | [], [] => Or.inr (Or.inr rfl)
  | [], _ :: _ => Or.inl rfl
  | _ :: _, [] => Or.inr (Or.inl rfl)
  | a :: as, b :: bs => by
    rcases lt_trichotomy a b with h | h | h
    · exact Or.inl (by simp [charListLT, h])
    · subst h
      rcases charListLT_trichotomy as bs with h | h | h
      · exact Or.inl (by simp [charListLT, lt_irrefl, h])
      · exact Or.inr (Or.inl (by simp [charListLT, lt_irrefl, h]))
      · exact Or.inr (Or.inr (by rw [h]))
    · exact Or.inr (Or.inl (by simp [charListLT, h]))

lemma strLT_irrefl (a : String) : ¬ strLT a a := by
  unfold strLT
  rw [charListLT_irrefl]
  simp

lemma strLT_trans {a b c : String} : strLT a b → strLT b c → strLT a c :=
  charListLT_trans

lemma strLT_trichotomy (a b : String) : strLT a b ∨ strLT b a ∨ a = b := by
  rcases charListLT_trichotomy a.toList b.toList with h | h | h
  · exact Or.inl h
  · exact Or.inr (Or.inl h)
  · refine Or.inr (Or.inr ?_)
    cases a
    cases b
    simp only [String.toList] at h
    rw [h]

instance rowLE.isTotal (g : Row → String) : IsTotal Row (rowLE g) := by
  constructor
  intro a b
  rcases strLT_trichotomy (g a) (g b) with h | h | h
  · exact Or.inl (Or.inl h)
  · exact Or.inr (Or.inl h)
  · rcases Nat.le_total a.year_month b.year_month with hy | hy
    · exact Or.inl (Or.inr ⟨h, hy⟩)
    · exact Or.inr (Or.inr ⟨h.symm, hy⟩)

instance rowLE.isTrans (g : Row → String) : IsTrans Row (rowLE g) := by
  constructor
  intro a b c hab hbc
  rcases hab with hab | ⟨hab, hay⟩
  · rcases hbc with hbc | ⟨hbc, _⟩
    · exact Or.inl (strLT_trans hab hbc)
    · exact Or.inl (hbc ▸ hab)
  · rcases hbc with hbc | ⟨hbc, hby⟩
    · exact Or.inl (hab ▸ hbc)
    · exact Or.inr ⟨hab.trans hbc, hay.trans hby⟩

lemma deriveFrom_map_toRow (g : Row → String) :
    ∀ (rows pre : List Row), (deriveFrom g pre rows).map DRow.toRow = rows := by
  intro rows
  induction rows with
  | nil => intro pre; simp [deriveFrom]
  | cons r rs ih => intro pre; simp [deriveFrom, ih]

lemma deriveFrom_filter_map_toRow (g : Row → String) (k : String) :
    ∀ (rows pre : List Row),
      ((deriveFrom g pre rows).filter fun d => decide (g d.toRow = k)).map DRow.toRow
        = rows.filter fun x => decide (g x = k) := by
  intro rows
  induction rows with
  | nil => intro pre; simp [deriveFrom]
  | cons r rs ih =>
    intro pre
    by_cases hk : g r = k
    · simp [deriveFrom, List.filter_cons, hk, ih]
    · simp [deriveFrom, List.filter_cons, hk, ih]

lemma deriveFrom_filter_map_cumulative (g : Row → String) (k : String) :
    ∀ (rows pre : List Row),
      ((deriveFrom g pre rows).filter fun d => decide (g d.toRow = k)).map DRow.cumulative
        = runningSum (((pre.filter fun x => decide (g x = k)).map Row.count).sum)
            ((rows.filter fun x => decide (g x = k)).map Row.count) := by
  intro rows
  induction rows with
  | nil => intro pre; simp [deriveFrom, runningSum]
  | cons r rs ih =>
    intro pre
    by_cases hk : g r = k
    · have hfilter : ((pre ++ [r]).filter fun x => decide (g x = k))
          = (pre.filter fun x => decide (g x = k)) ++ [r] := by
        simp [List.filter_append, hk]
      simp [deriveFrom, List.filter_cons, hk, hfilter, runningSum, ih]
    · have hfilter : ((pre ++ [r]).filter fun x => decide (g x = k))
          = pre.filter fun x => decide (g x = k) := by
        simp [List.filter_append, hk]
      simp [deriveFrom, List.filter_cons, hk, hfilter, runningSum, ih]

lemma deriveFrom_filter_map_ma6_cum (g : Row → String) (k : String) :
    ∀ (rows pre : List Row),
      ((deriveFrom g pre rows).filter fun d => decide (g d.toRow = k)).map DRow.ma6_cum
        = runningSum (((pre.filter fun x => decide (g x = k)).map Row.ma_6).sum)
            ((rows.filter fun x => decide (g x = k)).map Row.ma_6) := by
  intro rows
  induction rows with
  | nil => intro pre; simp [deriveFrom, runningSum]
  | cons r rs ih =>
    intro pre
    by_cases hk : g r = k
    · have hfilter : ((pre ++ [r]).filter fun x => decide (g x = k))
          = (pre.filter fun x => decide (g x = k)) ++ [r] := by
        simp [List.filter_append, hk]
      simp [deriveFrom, List.filter_cons, hk, hfilter, runningSum, ih]
    · have hfilter : ((pre ++ [r]).filter fun x => decide (g x = k))
          = pre.filter fun x => decide (g x = k) := by
        simp [List.filter_append, hk]
      simp [deriveFrom, List.filter_cons, hk, hfilter, runningSum, ih]

lemma partitionOf_map_cumulative (g : Row → String) (k : String) (rows : List Row) :
    (partitionOf g k (deriveTable g rows)).map DRow.cumulative
      = runningSum 0 (((sortRows g rows).filter fun x => decide (g x = k)).map Row.count) := by
  have h := deriveFrom_filter_map_cumulative g k (sortRows g rows) []
  simpa [partitionOf, deriveTable] using h

lemma partitionOf_map_ma6_cum (g : Row → String) (k : String) (rows : List Row) :
    (partitionOf g k (deriveTable g rows)).map DRow.ma6_cum
      = runningSum 0 (((sortRows g rows).filter fun x => decide (g x = k)).map Row.ma_6) := by
  have h := deriveFrom_filter_map_ma6_cum g k (sortRows g rows) []
  simpa [partitionOf, deriveTable] using h

lemma partitionOf_map_toRow (g : Row → String) (k : String) (rows : List Row) :
    (partitionOf g k (deriveTable g rows)).map DRow.toRow
      = (sortRows g rows).filter fun x => decide (g x = k) := by
  have h := deriveFrom_filter_map_toRow g k (sortRows g rows) []
  simpa [partitionOf, deriveTable] using h

lemma runningSum_getLast? {β : Type} [AddMonoid β] :
    ∀ (vs : List β) (base : β), vs ≠ [] →
      (runningSum base vs).getLast? = some (base + vs.sum)
  | [], _, h => absurd rfl h
  | [v], base, _ => by simp [runningSum]
  | v :: w :: vs, base, _ => by
    have ih := runningSum_getLast? (w :: vs) (base + v) (by simp)
    rw [show runningSum base (v :: w :: vs)
        = (base + v) :: (base + v + w) :: runningSum (base + v + w) vs from rfl,
      List.getLast?_cons_cons,
      show ((base + v + w) :: runningSum (base + v + w) vs)
        = runningSum (base + v) (w :: vs) from rfl, ih]
    simp [add_assoc]

lemma runningSum_head?_zero (vs : List Int) :
    (runningSum 0 vs).head? = vs.head? := by
  cases vs with
  | nil => simp [runningSum]
  | cons v vs => simp [runningSum]

lemma runningSum_chain (vs : List Int) : ∀ (base : Int), (∀ v ∈ vs, 0 ≤ v) →
    List.Chain' (· ≤ ·) (runningSum base vs) := by
  induction vs with
  | nil => intro base _; simp [runningSum]
  | cons v vs ih =>
    intro base h
    have hrest := ih (base + v) (fun w hw => h w (by simp [hw]))
    cases vs with
    | nil => simp [runningSum]
    | cons w ws =>
      rw [runningSum, List.chain'_cons']
      refine ⟨?_, hrest⟩
      intro b hb
      rw [runningSum, List.head?_cons, Option.mem_def, Option.some.injEq] at hb
      have hw : (0 : Int) ≤ w := h w (by simp)
      omega

lemma sortRows_sorted (g : Row → String) (rows : List Row) :
    (sortRows g rows).Pairwise (rowLE g) :=
  List.sorted_insertionSort (rowLE g) rows

lemma sortRows_perm (g : Row → String) (rows : List Row) :
    List.Perm (sortRows g rows) rows :=
  List.perm_insertionSort (rowLE g) rows

lemma partitionOf_pairwise_ym (g : Row → String) (k : String) (rows : List Row) :
    (partitionOf g k (deriveTable g rows)).Pairwise
      (fun a b => a.year_month ≤ b.year_month) := by
  have h2 : ((deriveTable g rows).map DRow.toRow).Pairwise (rowLE g) := by
    rw [deriveTable, deriveFrom_map_toRow]
    exact sortRows_sorted g rows
  have h0 : (deriveTable g rows).Pairwise (fun a b => rowLE g a.toRow b.toRow) :=
    (List.pairwise_map).mp h2
  have h3 : (partitionOf g k (deriveTable g rows)).Pairwise
      (fun a b => rowLE g a.toRow b.toRow) := by
    unfold partitionOf
    exact h0.filter _
  refine h3.imp_of_mem ?_
  intro a b ha hb hab
  have hak : g a.toRow = k := by
    have := (List.mem_filter.mp ha).2
    simpa using this
  have hbk : g b.toRow = k := by
    have := (List.mem_filter.mp hb).2
    simpa using this
  rcases hab with hab | ⟨_, hy⟩
  · rw [hak, hbk] at hab
    exact absurd hab (strLT_irrefl k)
  · exact hy

lemma pairwise_ym_getLast? :
    ∀ (l : List DRow),
      l.Pairwise (fun a b => a.year_month ≤ b.year_month) →
      ∀ d, l.getLast? = some d → ∀ x ∈ l, x.year_month ≤ d.year_month
  | [], _, _, hd, _, hx => by simp at hd
  | [a], _, d, hd, x, hx => by
    simp at hd hx
    subst hd; subst hx
    exact le_refl _
  | a :: b :: t, hp, d, hd, x, hx => by
    rw [List.getLast?_cons_cons] at hd
    have hp' := hp.of_cons
    have ih := pairwise_ym_getLast? (b :: t) hp' d hd
    rcases List.mem_cons.mp hx with hx | hx
    · subst hx
      have hd_mem : d ∈ b :: t := by
        rcases List.mem_getLast?_eq_getLast (Option.mem_def.mpr hd) with ⟨h', rfl⟩
        exact List.getLast_mem h'
      exact (List.pairwise_cons.mp hp).1 d hd_mem
    · exact ih x hx

lemma mem_renameCols_iff {old new x : String} (hxnew : x ≠ new) (hxold : x ≠ old)
    (cols : List String) :
    x ∈ renameCols old new cols ↔ x ∈ cols := by
  unfold renameCols
  rw [List.mem_map]
  constructor
  · rintro ⟨c, hc, hf⟩
    by_cases h : c = old
    · subst h
      simp only [if_pos rfl] at hf
      exact absurd hf.symm hxnew
    · rw [if_neg h] at hf
      subst hf
      exact hc
  · intro hx
    exact ⟨x, hx, by rw [if_neg hxold]⟩

/-! Claim theorems. -/

/-- C1 (amended): for every raw difficulty record whose base and
dimension-suffixed ratings satisfy TRL ∈ [1,9], Technical_Feasibility ∈ [1,5]
and Social_Feasibility ∈ [1,5], the scorer's `TRL_norm`, `Tech_norm` and
`Social_inv_norm` lie in [0,1]; the composite scores `Composite_Score_d`
lie in [0, 21/20] — not in [0,1] as claimed, because the weights
0.35 + 0.50 + 0.20 sum to 21/20. -/
theorem C1_scored_components_bounded (r : DiffRow)
    (hT1 : 1 ≤ r.TRL) (hT2 : r.TRL ≤ 9)
    (hF1 : 1 ≤ r.Technical_Feasibility) (hF2 : r.Technical_Feasibility ≤ 5)
    (hS1 : 1 ≤ r.Social_Feasibility) (hS2 : r.Social_Feasibility ≤ 5)
    (hTi1 : 1 ≤ r.TRL_industry) (hTi2 : r.TRL_industry ≤ 9)
    (hFi1 : 1 ≤ r.Technical_Feasibility_industry)
    (hFi2 : r.Technical_Feasibility_industry ≤ 5)
    (hSi1 : 1 ≤ r.Social_Feasibility_industry)
    (hSi2 : r.Social_Feasibility_industry ≤ 5)
    (hTc1 : 1 ≤ r.TRL_company) (hTc2 : r.TRL_company ≤ 9)
    (hFc1 : 1 ≤ r.Technical_Feasibility_company)
    (hFc2 : r.Technical_Feasibility_company ≤ 5)
    (hSc1 : 1 ≤ r.Social_Feasibility_company)
    (hSc2 : r.Social_Feasibility_company ≤ 5) :
    (0 ≤ (scoreRow r).TRL_norm ∧ (scoreRow r).TRL_norm ≤ 1)
    ∧ (0 ≤ (scoreRow r).Tech_norm ∧ (scoreRow r).Tech_norm ≤ 1)
    ∧ (0 ≤ (scoreRow r).Social_inv_norm ∧ (scoreRow r).Social_inv_norm ≤ 1)
    ∧ (0 ≤ (scoreRow r).Composite_Score_industry
        ∧ (scoreRow r).Composite_Score_industry ≤ 21 / 20)
    ∧ (0 ≤ (scoreRow r).Composite_Score_company
        ∧ (scoreRow r).Composite_Score_company ≤ 21 / 20) := by
  simp only [scoreRow, w_TRL, w_Tech, w_Social]
  norm_num
  refine ⟨⟨?_, ?_⟩, ⟨?_, ?_⟩, ⟨?_, ?_⟩, ⟨?_, ?_⟩, ⟨?_, ?_⟩⟩ <;> linarith

/-- Witness for C1: the amended bounds instantiated at `midDiffRow`. -/
theorem C1_witness :
    (0 ≤ (scoreRow midDiffRow).TRL_norm ∧ (scoreRow midDiffRow).TRL_norm ≤ 1)
    ∧ (0 ≤ (scoreRow midDiffRow).Tech_norm ∧ (scoreRow midDiffRow).Tech_norm ≤ 1)
    ∧ (0 ≤ (scoreRow midDiffRow).Social_inv_norm
        ∧ (scoreRow midDiffRow).Social_inv_norm ≤ 1)
    ∧ (0 ≤ (scoreRow midDiffRow).Composite_Score_industry
        ∧ (scoreRow midDiffRow).Composite_Score_industry ≤ 21 / 20)
    ∧ (0 ≤ (scoreRow midDiffRow).Composite_Score_company
        ∧ (scoreRow midDiffRow).Composite_Score_company ≤ 21 / 20) :=
  C1_scored_components_bounded midDiffRow
    (by decide) (by decide) (by decide) (by decide) (by decide) (by decide)
    (by decide) (by decide) (by decide) (by decide) (by decide) (by decide)
    (by decide) (by decide) (by decide) (by decide) (by decide) (by decide)

/-- C1 is false as stated: `maxDiffRow` keeps every rating inside its
documented range, yet its industry composite score equals 21/20 > 1. -/
theorem C1_counterexample :
    (1 ≤ maxDiffRow.TRL ∧ maxDiffRow.TRL ≤ 9
      ∧ 1 ≤ maxDiffRow.Technical_Feasibility ∧ maxDiffRow.Technical_Feasibility ≤ 5
      ∧ 1 ≤ maxDiffRow.Social_Feasibility ∧ maxDiffRow.Social_Feasibility ≤ 5
      ∧ 1 ≤ maxDiffRow.TRL_industry ∧ maxDiffRow.TRL_industry ≤ 9
      ∧ 1 ≤ maxDiffRow.Technical_Feasibility_industry
      ∧ maxDiffRow.Technical_Feasibility_industry ≤ 5
      ∧ 1 ≤ maxDiffRow.Social_Feasibility_industry
      ∧ maxDiffRow.Social_Feasibility_industry ≤ 5
      ∧ 1 ≤ maxDiffRow.TRL_company ∧ maxDiffRow.TRL_company ≤ 9
      ∧ 1 ≤ maxDiffRow.Technical_Feasibility_company
      ∧ maxDiffRow.Technical_Feasibility_company ≤ 5
      ∧ 1 ≤ maxDiffRow.Social_Feasibility_company
      ∧ maxDiffRow.Social_Feasibility_company ≤ 5)
    ∧ (scoreRow maxDiffRow).Composite_Score_industry = 21 / 20
    ∧ ¬ (scoreRow maxDiffRow).Composite_Score_industry ≤ 1 := by
  refine ⟨by norm_num [maxDiffRow], ?_, ?_⟩ <;>
    norm_num [maxDiffRow, scoreRow, w_TRL, w_Tech, w_Social]

/-- C2 (amended): the composite weights sum to 21/20 (= 1.05), not 1.0;
the all-favourable input (TRL 9, Technical Feasibility 5, Social
Feasibility 1) scores exactly 21/20 in both dimensions, and the
all-unfavourable input (TRL 1, Technical Feasibility 1, Social
Feasibility 5) scores exactly 0. -/
theorem C2_weights_and_endpoints :
    w_TRL + w_Tech + w_Social = 21 / 20
    ∧ (scoreRow maxDiffRow).Composite_Score_industry = 21 / 20
    ∧ (scoreRow maxDiffRow).Composite_Score_company = 21 / 20
    ∧ (scoreRow minDiffRow).Composite_Score_industry = 0
    ∧ (scoreRow minDiffRow).Composite_Score_company = 0 := by
  refine ⟨?_, ?_, ?_, ?_, ?_⟩ <;>
    norm_num [maxDiffRow, minDiffRow, scoreRow, w_TRL, w_Tech, w_Social]

/-- C2 is false as stated: the weights do not sum to 1, and the
all-favourable input does not score 1. -/
theorem C2_counterexample :
    ¬ (w_TRL + w_Tech + w_Social = 1)
    ∧ ¬ ((scoreRow maxDiffRow).Composite_Score_industry = 1) := by
  refine ⟨?_, ?_⟩ <;>
    norm_num [maxDiffRow, scoreRow, w_TRL, w_Tech, w_Social]

/-- C9 (amended): when the technical-element selection is empty, the
difficulty mode warns and stops — no chart is rendered and no filtered
table is produced — but the scored table has already been computed, since
`load_difficulty` runs before the selection is read (scoring happens at
load time, not after the emptiness check). -/
theorem C9_empty_selection_stops (raw : List DiffRow) (techs : List String)
    (h : techs = []) :
    difficultyMode raw techs
      = ([DiffEvent.scoringRun, DiffEvent.emptySelectionWarning], []) := by
  subst h
  simp [difficultyMode]

/-- Witness for C9: the empty-selection behaviour at a concrete table. -/
theorem C9_witness :
    difficultyMode [midDiffRow] []
      = ([DiffEvent.scoringRun, DiffEvent.emptySelectionWarning], []) :=
  C9_empty_selection_stops [midDiffRow] [] rfl

/-- C9 is false as stated: on an empty selection the script does warn and
stop before rendering, but scoring has already occurred — the event trace
at a concrete input starts with the scoring step, and the warning follows
it rather than preceding scoring. -/
theorem C9_counterexample :
    (difficultyMode [maxDiffRow] []).1.head? = some DiffEvent.scoringRun
    ∧ DiffEvent.emptySelectionWarning ∈ (difficultyMode [maxDiffRow] []).1
    ∧ DiffEvent.chartRendered ∉ (difficultyMode [maxDiffRow] []).1 := by
  refine ⟨?_, ?_, ?_⟩ <;> decide

/-- C6: grouping-column detection tries the exact aliases Country, country,
Company, company, industry, Industry in that fixed order with the first
match winning; in particular, for a table containing both a `Country` and a
`company` column, `normalize` renames `Country` (not `company`) to the
canonical group-key column. -/
theorem C6_country_beats_company (cols : List String)
    (hc : "Country" ∈ cols) (_hk : "company" ∈ cols) :
    detectGroupCol cols = some "Country"
    ∧ normalizeGroupCol cols = renameCols "Country" "key" cols := by
  have hd : detectGroupCol cols = some "Country" := by
    unfold detectGroupCol groupAliases
    exact List.find?_cons_of_pos _ (by simpa using hc)
  refine ⟨hd, ?_⟩
  unfold normalizeGroupCol
  rw [hd]

/-- Witness for C6 at the concrete schema holding both group columns. -/
theorem C6_witness :
    detectGroupCol twoGroupCols = some "Country"
    ∧ normalizeGroupCol twoGroupCols
        = ["year_month", "technical_elements", "key", "company", "items",
            "ma_6", "conversion_flag"] := by
  have h := C6_country_beats_company twoGroupCols (by decide) (by decide)
  exact ⟨h.1, h.2.trans (by decide)⟩

/-- C7 (amended): when no technical-element alias is present, v1.5
`load_monthly` silently returns a table lacking the canonical
`technical_element` column — only `items → count` is renamed and no error is
raised (no `SchemaError` exists in the code).  v1.1 `load_combined_monthly`
displays an error message and then fails with a `KeyError` at its final
column selection, not with a `SchemaError`. -/
theorem C7_missing_alias_behavior (cols : List String)
    (h1 : "category" ∉ cols) (h2 : "Technical_elements" ∉ cols)
    (h3 : "technical_elements" ∉ cols) (h4 : "technical_element" ∉ cols) :
    load_monthly_cols cols = renameCols "items" "count" cols
    ∧ "technical_element" ∉ load_monthly_cols cols
    ∧ load_combined_monthly_cols cols = Except.error "KeyError" := by
  have hmap : monthlyRenameMap cols = [("items", "count")] := by
    simp [monthlyRenameMap, h1, h2, h3]
  have happly : applyRenameMap [("items", "count")] cols
      = renameCols "items" "count" cols := by
    unfold applyRenameMap renameCols
    apply List.map_congr_left
    intro c _
    by_cases h : c = "items"
    · subst h
      simp [List.find?]
    · have h' : ¬ ("items" = c) := fun he => h he.symm
      simp [List.find?, h, h']
  have hload : load_monthly_cols cols = renameCols "items" "count" cols := by
    rw [load_monthly_cols, hmap, happly]
  have hnote : "technical_element" ∉ load_monthly_cols cols := by
    rw [hload]
    intro hmem
    exact h4 ((mem_renameCols_iff (by decide) (by decide) cols).mp hmem)
  refine ⟨hload, hnote, ?_⟩
  have hcat : "category" ∉ renameCols "items" "count" cols := fun hm =>
    h1 ((mem_renameCols_iff (by decide) (by decide) cols).mp hm)
  have hTe : "Technical_elements" ∉ renameCols "items" "count" cols := fun hm =>
    h2 ((mem_renameCols_iff (by decide) (by decide) cols).mp hm)
  have hte : "technical_element" ∉ renameCols "items" "count" cols := fun hm =>
    h4 ((mem_renameCols_iff (by decide) (by decide) cols).mp hm)
  have hren : monthlyRename_v11 cols = renameCols "items" "count" cols := by
    simp [monthlyRename_v11, hcat, hTe]
  rw [load_combined_monthly_cols, hren]
  simp [selectCols, hte]

/-- Witness for C7 at the concrete alias-free monthly schema. -/
theorem C7_witness :
    load_monthly_cols badMonthlyCols = renameCols "items" "count" badMonthlyCols
    ∧ "technical_element" ∉ load_monthly_cols badMonthlyCols
    ∧ load_combined_monthly_cols badMonthlyCols = Except.error "KeyError" :=
  C7_missing_alias_behavior badMonthlyCols
    (by decide) (by decide) (by decide) (by decide)

/-- C7 is false as stated: on a concrete alias-free table, v1.5
`load_monthly` succeeds and returns a schema that silently lacks the
canonical `technical_element` column, instead of failing with a
`SchemaError`. -/
theorem C7_counterexample :
    load_monthly_cols badMonthlyCols
      = ["year_month", "count", "ma_6", "conversion_flag"]
    ∧ "technical_element" ∉ load_monthly_cols badMonthlyCols := by
  refine ⟨?_, ?_⟩ <;> decide

/-- C8 (amended): with `errors="coerce"` (v1.5 and the transformer variant)
timestamp parsing is total — every row is retained and receives exactly its
parse result, null for unparseable values; with the default strict policy
(v1.1/v1.2/v1.3/v1.4) the load raises exactly when some timestamp value is
unparseable. -/
theorem C8_coerce_total_strict_raises (vals : List String) :
    List.Forall₂ (fun s t => t = parseTimestamp s) vals (to_datetime_coerce vals)
    ∧ ((∃ e, to_datetime_strict vals = Except.error e)
        ↔ ∃ s ∈ vals, parseTimestamp s = none) := by
  constructor
  · unfold to_datetime_coerce
    induction vals with
    | nil => exact List.Forall₂.nil
    | cons v vs ih => exact List.Forall₂.cons rfl ih
  · induction vals with
    | nil => simp [to_datetime_strict]
    | cons v vs ih =>
      cases hv : parseTimestamp v with
      | none => simp [to_datetime_strict, hv]
      | some t =>
        cases hrec : to_datetime_strict vs with
        | ok ts =>
          rw [hrec] at ih
          simp only [to_datetime_strict, hv, hrec]
          simp at ih
          simp [hv]
          exact ih
        | error e =>
          rw [hrec] at ih
          simp only [to_datetime_strict, hv, hrec]
          simp at ih
          simp [hv, ih]

/-- C8 is false as stated: the v1.1/v1.3 loaders parse timestamps with the
default raise policy, so a single unparseable value makes that load fail
instead of retaining the row with a null timestamp (v1.5 does retain it). -/
theorem C8_counterexample :
    to_datetime_strict ["2023-01", "not a date"] = Except.error "not a date"
    ∧ to_datetime_coerce ["2023-01", "not a date"] = [some 752556, none] :=
  ⟨rfl, rfl⟩

/-- C3: for every canonical count table and grouping, the last row of a
`(technical_element, group_key)` partition of the derived table — which
carries the partition's maximal timestamp — has `cumulative` equal to the
sum of `count` over all rows of that partition of the input table. -/
theorem C3_last_cumulative_is_partition_sum (g : Row → String) (rows : List Row)
    (k : String) (h : partitionOf g k (deriveTable g rows) ≠ []) :
    ∃ d, (partitionOf g k (deriveTable g rows)).getLast? = some d
      ∧ d.cumulative = ((rows.filter fun x => decide (g x = k)).map Row.count).sum
      ∧ ∀ x ∈ partitionOf g k (deriveTable g rows), x.year_month ≤ d.year_month := by
  obtain ⟨d, hd⟩ : ∃ d, (partitionOf g k (deriveTable g rows)).getLast? = some d :=
    ⟨(partitionOf g k (deriveTable g rows)).getLast h,
      List.getLast?_eq_getLast_of_ne_nil h⟩
  refine ⟨d, hd, ?_, ?_⟩
  · have hmap := partitionOf_map_cumulative g k rows
    have hlast : ((partitionOf g k (deriveTable g rows)).map DRow.cumulative).getLast?
        = some d.cumulative := by
      rw [List.getLast?_map, hd]
      rfl
    have hvs_ne : ((sortRows g rows).filter fun x => decide (g x = k)).map Row.count ≠ [] := by
      intro hnil
      rw [hmap, hnil] at hlast
      simp [runningSum] at hlast
    have hrs := runningSum_getLast?
      (((sortRows g rows).filter fun x => decide (g x = k)).map Row.count) 0 hvs_ne
    rw [hmap, hrs, Option.some.injEq] at hlast
    have hperm : ((((sortRows g rows).filter fun x => decide (g x = k)).map Row.count)).Perm
        ((rows.filter fun x => decide (g x = k)).map Row.count) :=
      ((sortRows_perm g rows).filter _).map _
    rw [← hlast, zero_add]
    exact hperm.sum_eq
  · exact pairwise_ym_getLast? _ (partitionOf_pairwise_ym g k rows) d hd

/-- Witness for C3: on the spec's two-row scenario the last `"AI"` row has
cumulative count 15. -/
theorem C3_witness :
    ∃ d, (partitionOf Row.technical_element "AI"
        (deriveTable Row.technical_element exRows)).getLast? = some d
      ∧ d.cumulative = 15 := by
  obtain ⟨d, hd, hsum, _⟩ :=
    C3_last_cumulative_is_partition_sum Row.technical_element exRows "AI" (by decide)
  refine ⟨d, hd, ?_⟩
  rw [hsum]
  decide

/-- C4 (amended): within each partition of the derived table the cumulative
count series, in timestamp order, is monotonically non-decreasing whenever
all counts are non-negative; it starts at the first row's own `count`
(the running sum starts from 0 before the first row), not at 0. -/
theorem C4_cumulative_monotone (g : Row → String) (rows : List Row) (k : String)
    (hpos : ∀ r ∈ rows, 0 ≤ r.count) :
    List.Chain' (· ≤ ·) ((partitionOf g k (deriveTable g rows)).map DRow.cumulative)
    ∧ ((partitionOf g k (deriveTable g rows)).map DRow.cumulative).head?
        = ((partitionOf g k (deriveTable g rows)).map fun d => d.count).head? := by
  have hmap := partitionOf_map_cumulative g k rows
  have hcounts : ((partitionOf g k (deriveTable g rows)).map fun d => d.count)
      = ((sortRows g rows).filter fun x => decide (g x = k)).map Row.count := by
    rw [show (fun d : DRow => d.count) = Row.count ∘ DRow.toRow from rfl,
      ← List.map_map, partitionOf_map_toRow]
  constructor
  · rw [hmap]
    apply runningSum_chain
    intro v hv
    rw [List.mem_map] at hv
    obtain ⟨x, hx, rfl⟩ := hv
    have hx' : x ∈ sortRows g rows := List.mem_of_mem_filter hx
    exact hpos x ((sortRows_perm g rows).mem_iff.mp hx')
  · rw [hmap, hcounts, runningSum_head?_zero]

/-- Witness for C4: the amended statement at the spec's two-row scenario. -/
theorem C4_witness :
    List.Chain' (· ≤ ·) ((partitionOf Row.technical_element "AI"
        (deriveTable Row.technical_element exRows)).map DRow.cumulative)
    ∧ ((partitionOf Row.technical_element "AI"
        (deriveTable Row.technical_element exRows)).map DRow.cumulative).head?
        = ((partitionOf Row.technical_element "AI"
        (deriveTable Row.technical_element exRows)).map fun d => d.count).head? :=
  C4_cumulative_monotone Row.technical_element exRows "AI" (by decide)

/-- C4 is false as stated: for the one-row table with count 10, the
partition's cumulative series is `[10]` — it starts at the first row's
count, not at 0. -/
theorem C4_counterexample :
    ((partitionOf Row.technical_element "AI"
        (deriveTable Row.technical_element [exRow1])).map DRow.cumulative) = [10]
    ∧ ((partitionOf Row.technical_element "AI"
        (deriveTable Row.technical_element [exRow1])).map DRow.cumulative).head?
        ≠ some 0 := by
  refine ⟨?_, ?_⟩ <;> decide

/-- C5: within each partition of the derived table, `ma6_cum` is the literal
running sum of the per-period `ma_6` values in timestamp order — the
cumulative sum of the already-smoothed per-period values, exactly as every
source variant computes it (and not a moving average of the cumulative
series). -/
theorem C5_ma6_cum_is_running_sum (g : Row → String) (rows : List Row) (k : String) :
    (partitionOf g k (deriveTable g rows)).map DRow.ma6_cum
      = runningSum 0 ((partitionOf g k (deriveTable g rows)).map fun d => d.ma_6) := by
  rw [partitionOf_map_ma6_cum]
  congr 1
  rw [show (fun d : DRow => d.ma_6) = Row.ma_6 ∘ DRow.toRow from rfl,
    ← List.map_map, partitionOf_map_toRow]

/-- C10: the derive step only sorts the rows and appends the `cumulative`
and `ma6_cum` columns: projecting the new columns away gives exactly the
sorted input, which is a permutation of the input — no row is added or
removed and every pre-existing column value is unchanged.  (The
column-deduplication step of v1.5 is the identity under the claim's
pairwise-distinct-columns hypothesis, which the record embedding makes
implicit.) -/
theorem C10_derive_is_frame_preserving (g : Row → String) (rows : List Row) :
    (deriveTable g rows).map DRow.toRow = sortRows g rows
    ∧ ((deriveTable g rows).map DRow.toRow).Perm rows := by
  have h0 : (deriveTable g rows).map DRow.toRow = sortRows g rows := by
    unfold deriveTable
    exact deriveFrom_map_toRow g _ []
  exact ⟨h0, h0 ▸ sortRows_perm g rows⟩

end PatentApp
